import Mathlib

/-!
Shallow embedding of `statuspage/statuspage.py` (codepaws/statuspage):
status/incident derivation, panel grouping, config resolution and the
idempotent publish decision, together with proofs of the specification
claims about them.

External collaborators (GitHub API, markdown renderer, template engine,
JSON parser, SHA-1 from the standard library) are modelled as explicit
parameters or as concrete executable functions, following the spec's
black-box interfaces.  Python mutable state (the module-level
`DEFAULT_CONFIG` object) is modelled by explicit state passing.
-/

namespace Statuspage

/-- A GitHub label: `{name, color}` (color is a hex string without `#`). -/
structure Label where
  name : String
  color : String
deriving DecidableEq, Repr

/-- A comment on an issue (`comment.user.login`, `created_at`, `body`). -/
structure Comment where
  user : String
  created_at : Nat
  body : String
deriving DecidableEq, Repr

/-- A GitHub issue as used by the tool: state is the literal string
`"open"` or `"closed"`, `user` is the author's login, `labels` is the
list returned by `issue.get_labels()`, `comments` by `issue.get_comments()`. -/
structure Issue where
  state : String
  title : String
  body : String
  created_at : Nat
  user : String
  labels : List Label
  comments : List Comment
deriving DecidableEq, Repr

/-- The slice of a repository the derivation functions consult:
`repo.get_labels()` and the collaborator logins from `repo.get_collaborators()`. -/
structure Repo where
  labels : List Label
  collaborators : List String
deriving DecidableEq, Repr

/-- A system's status: `some "operational"`, `some severityName`, or the
literal Python `None` (`none`). -/
abbrev Status := Option String

/-- The ordered mapping system name -> status cell, modelling the Python
`OrderedDict` built by `get_systems` (an association list in insertion order). -/
abbrev SysMap := List (String × Status)

/-- First-match lookup in an association list (Python `d[k]` / `k in d`). -/
def findVal (k : String) : List (String × α) → Option α
  | [] => none
  | (k', v) :: rest => if k' = k then some v else findVal k rest

/-- Python dict assignment `d[k] = v`: replace in place if the key exists
(keeping its position), otherwise append at the end. -/
def setKey (k : String) (v : α) : List (String × α) → List (String × α)
  | [] => [(k, v)]
  | (k', v') :: rest => if k' = k then (k, v) :: rest else (k', v') :: setKey k v rest

/-- The keys of an association list, in order. -/
def keysOf (m : List (String × α)) : List String := m.map Prod.fst

theorem keysOf_nil : keysOf (α := α) [] = [] := rfl

theorem keysOf_cons (k : String) (v : α) (m : List (String × α)) :
    keysOf ((k, v) :: m) = k :: keysOf m := rfl

theorem findVal_eq_none {k : String} {m : List (String × α)} :
    findVal k m = none ↔ k ∉ keysOf m := by
  induction m with
  | nil => simp [findVal, keysOf]
  | cons p rest ih =>
    obtain ⟨k', v⟩ := p
    rw [keysOf_cons, List.mem_cons]
    by_cases h : k' = k
    · subst h
      simp [findVal]
    · simp only [findVal, if_neg h, ih]
      constructor
      · intro hn hc
        rcases hc with hc | hc
        · exact h hc.symm
        · exact hn hc
      · intro hn hc
        exact hn (Or.inr hc)

theorem keysOf_setKey_mem {k : String} {v : α} {m : List (String × α)}
    (h : k ∈ keysOf m) : keysOf (setKey k v m) = keysOf m := by
  induction m with
  | nil => simp [keysOf] at h
  | cons p rest ih =>
    obtain ⟨k', v'⟩ := p
    by_cases hk : k' = k
    · simp [setKey, hk, keysOf_cons]
    · rw [keysOf_cons, List.mem_cons] at h
      rcases h with h | h
      · exact absurd h.symm hk
      · simp [setKey, hk, keysOf_cons, ih h]

theorem keysOf_setKey_not_mem {k : String} {v : α} {m : List (String × α)}
    (h : k ∉ keysOf m) : keysOf (setKey k v m) = keysOf m ++ [k] := by
  induction m with
  | nil => simp [setKey, keysOf]
  | cons p rest ih =>
    obtain ⟨k', v'⟩ := p
    rw [keysOf_cons, List.mem_cons] at h
    push_neg at h
    simp [setKey, Ne.symm h.1, keysOf_cons, ih h.2]

theorem findVal_setKey_self (k : String) (v : α) (m : List (String × α)) :
    findVal k (setKey k v m) = some v := by
  induction m with
  | nil => simp [setKey, findVal]
  | cons p rest ih =>
    obtain ⟨k', v'⟩ := p
    by_cases hk : k' = k <;> simp [setKey, findVal, hk, ih]

theorem findVal_setKey_other {k s : String} (v : α) (m : List (String × α))
    (h : k ≠ s) : findVal s (setKey k v m) = findVal s m := by
  induction m with
  | nil => simp [setKey, findVal, h]
  | cons p rest ih =>
    obtain ⟨k', v'⟩ := p
    by_cases hk : k' = k
    · subst hk
      simp [setKey, findVal, h]
    · by_cases hs : k' = s
      · subst hs
        simp [setKey, findVal, hk, Ne.symm h, ih]
      · simp [setKey, findVal, hk, hs, ih]

/-- Stable insertion into an ascending list of strings (helper for the
embedding of Python `sorted` on strings). -/
def insertStr (x : String) : List String → List String
  | [] => [x]
  | y :: ys => if x ≤ y then x :: y :: ys else y :: insertStr x ys

/-- Embedding of Python `sorted` on a list of strings: stable sort in
ascending lexicographic order. -/
def sortStrs : List String → List String
  | [] => []
  | x :: xs => insertStr x (sortStrs xs)

theorem mem_insertStr {a x : String} {l : List String} :
    a ∈ insertStr x l ↔ a = x ∨ a ∈ l := by
  induction l with
  | nil => simp [insertStr]
  | cons y ys ih =>
    by_cases h : x ≤ y <;> simp [insertStr, h, ih] <;> tauto

theorem insertStr_perm (x : String) (l : List String) :
    List.Perm (insertStr x l) (x :: l) := by
  induction l with
  | nil => simp [insertStr]
  | cons y ys ih =>
    by_cases h : x ≤ y
    · simp [insertStr, h]
    · simp only [insertStr, if_neg h]
      exact (ih.cons y).trans (List.Perm.swap x y ys)

theorem sortStrs_perm (l : List String) : List.Perm (sortStrs l) l := by
  induction l with
  | nil => simp [sortStrs]
  | cons x xs ih => exact (insertStr_perm x (sortStrs xs)).trans (ih.cons x)

theorem sorted_insertStr {x : String} {l : List String}
    (h : List.Pairwise (· ≤ ·) l) :
    List.Pairwise (· ≤ ·) (insertStr x l) := by
  induction l with
  | nil => simp [insertStr]
  | cons y ys ih =>
    by_cases hxy : x ≤ y
    · simp only [insertStr, if_pos hxy]
      refine List.Pairwise.cons ?_ h
      intro z hz
      rcases List.mem_cons.mp hz with hz | hz
      · exact hz ▸ hxy
      · exact le_trans hxy (List.rel_of_pairwise_cons h hz)
    · have hyx : y ≤ x := le_of_not_le hxy
      simp only [insertStr, if_neg hxy]
      refine List.Pairwise.cons ?_ (ih h.of_cons)
      intro z hz
      rcases mem_insertStr.mp hz with hz | hz
      · exact hz ▸ hyx
      · exact List.rel_of_pairwise_cons h hz

theorem sorted_sortStrs (l : List String) :
    List.Pairwise (· ≤ ·) (sortStrs l) := by
  induction l with
  | nil => simp [sortStrs]
  | cons x xs ih => exact sorted_insertStr ih

/-- `iter_systems(labels, system_color)` from the source: the names of the
labels whose color equals the system color, in label order. -/
def iter_systems (labels : List Label) (system_color : String) : List String :=
  (labels.filter (fun l => l.color = system_color)).map Label.name

/-- `get_severity(labels, status_labels)` from the source: the name of the
first label that is a key of the `status-labels` mapping, else `None`. -/
def get_severity (labels : List Label) (status_labels : List (String × String)) :
    Option String :=
  labels.findSome? (fun l =>
    if l.name ∈ keysOf status_labels then some l.name else none)

/-- The seeding loop of `get_systems`: `for name in sorted(...): systems[name]
 = {"status": "operational"}` (an ordered-dict assignment per name). -/
def buildSeed (names : List String) : SysMap :=
  names.foldl (fun m n => setKey n (some "operational") m) []

/-- The inner loop of `get_systems`: `for affected_system in affected_systems:
systems[affected_system]["status"] = severity`.  A missing key raises a
`KeyError`, modelled as `Except.error`. -/
def setAffected (severity : Status) : List String → SysMap → Except Unit SysMap
  | [], m => .ok m
  | a :: rest, m =>
    if a ∈ keysOf m then setAffected severity rest (setKey a severity m)
    else .error ()

/-- The issue loop of `get_systems`: open issues overwrite the status of every
affected system with the issue's severity (possibly `None`). -/
def processIssues (sc : String) (sl : List (String × String)) :
    List Issue → SysMap → Except Unit SysMap
  | [], m => .ok m
  | i :: rest, m =>
    if i.state = "open" then
      match setAffected (get_severity i.labels sl) (iter_systems i.labels sc) m with
      | .ok m' => processIssues sc sl rest m'
      | .error e => .error e
    else processIssues sc sl rest m

/-- `get_systems(repo, issues, system_color, status_labels)` from the source:
seed every system label as operational (ascending name order), then let each
open issue overwrite the statuses of its affected systems. -/
def get_systems (repo : Repo) (issues : List Issue) (sc : String)
    (sl : List (String × String)) : Except Unit SysMap :=
  processIssues sc sl issues (buildSeed (sortStrs (iter_systems repo.labels sc)))

/-- The names of the seeded system entries (the keys present after step 1 of
`get_systems`). -/
def seedKeys (repo : Repo) (sc : String) : List String :=
  keysOf (buildSeed (sortStrs (iter_systems repo.labels sc)))

/-- Spec-side: the open issues that carry system label `s`, in fetch order. -/
def openAffecting (issues : List Issue) (sc : String) (s : String) : List Issue :=
  issues.filter (fun i => i.state = "open" ∧ s ∈ iter_systems i.labels sc)

/-- Spec-side: the status `get_systems` is expected to leave for system `s`:
the severity (possibly `None`) of the last open issue carrying `s`, or
`"operational"` when no open issue carries `s`. -/
def finalStatus (issues : List Issue) (sc : String)
    (sl : List (String × String)) (s : String) : Status :=
  match (openAffecting issues sc s).getLast? with
  | none => some "operational"
  | some i => get_severity i.labels sl

theorem mem_keysOf_buildSeed_aux (names : List String) (m : SysMap) (s : String) :
    s ∈ keysOf (names.foldl (fun m n => setKey n (some "operational") m) m) ↔
      s ∈ keysOf m ∨ s ∈ names := by
  induction names generalizing m with
  | nil => simp [List.foldl]
  | cons n rest ih =>
    simp only [List.foldl, ih, List.mem_cons]
    by_cases hn : n ∈ keysOf m
    · rw [keysOf_setKey_mem hn]
      constructor
      · intro h
        rcases h with h | h
        · exact Or.inl h
        · exact Or.inr (Or.inr h)
      · intro h
        rcases h with h | h | h
        · exact Or.inl h
        · exact Or.inl (h ▸ hn)
        · exact Or.inr h
    · rw [keysOf_setKey_not_mem hn]
      simp only [List.mem_append, List.mem_singleton]
      tauto

theorem mem_seedKeys {repo : Repo} {sc : String} {s : String} :
    s ∈ seedKeys repo sc ↔ s ∈ iter_systems repo.labels sc := by
  unfold seedKeys buildSeed
  rw [mem_keysOf_buildSeed_aux]
  simp only [keysOf_nil, List.not_mem_nil, false_or]
  exact (sortStrs_perm _).mem_iff

theorem setAffected_ok_keys {sev : Status} :
    ∀ {aff : List String} {m m' : SysMap},
      setAffected sev aff m = .ok m' → keysOf m' = keysOf m := by
  intro aff
  induction aff with
  | nil =>
    intro m m' h
    simp only [setAffected, Except.ok.injEq] at h
    rw [h]
  | cons a rest ih =>
    intro m m' h
    by_cases ha : a ∈ keysOf m
    · simp only [setAffected, if_pos ha] at h
      rw [ih h, keysOf_setKey_mem ha]
    · simp [setAffected, ha] at h

theorem processIssues_ok_keys {sc : String} {sl : List (String × String)} :
    ∀ {issues : List Issue} {m m' : SysMap},
      processIssues sc sl issues m = .ok m' → keysOf m' = keysOf m := by
  intro issues
  induction issues with
  | nil =>
    intro m m' h
    simp only [processIssues, Except.ok.injEq] at h
    rw [h]
  | cons i rest ih =>
    intro m m' h
    by_cases hs : i.state = "open"
    · simp only [processIssues, if_pos hs] at h
      cases hset : setAffected (get_severity i.labels sl) (iter_systems i.labels sc) m with
      | ok m₁ =>
        rw [hset] at h
        rw [ih h, setAffected_ok_keys hset]
      | error e =>
        rw [hset] at h
        cases h
    · simp only [processIssues, if_neg hs] at h
      exact ih h

theorem findVal_buildSeed_aux (names : List String) (m : SysMap) (s : String) :
    findVal s (names.foldl (fun m n => setKey n (some "operational") m) m) =
      if s ∈ names then some (some "operational") else findVal s m := by
  induction names generalizing m with
  | nil => simp [List.foldl]
  | cons n rest ih =>
    simp only [List.foldl, ih, List.mem_cons]
    by_cases hr : s ∈ rest
    · simp [hr]
    · by_cases hn : s = n
      · subst hn
        simp [hr, findVal_setKey_self]
      · simp [hr, hn, findVal_setKey_other _ _ (Ne.symm hn)]

theorem findVal_buildSeed (names : List String) (s : String) :
    findVal s (buildSeed names) =
      if s ∈ names then some (some "operational") else none := by
  unfold buildSeed
  rw [findVal_buildSeed_aux]
  rfl

theorem keysOf_buildSeed_aux (names : List String) (m : SysMap)
    (hnd : names.Nodup) (hfresh : ∀ n ∈ names, n ∉ keysOf m) :
    keysOf (names.foldl (fun m n => setKey n (some "operational") m) m) =
      keysOf m ++ names := by
  induction names generalizing m with
  | nil => simp [List.foldl]
  | cons n rest ih =>
    simp only [List.foldl]
    have hn : n ∉ keysOf m := hfresh n (List.mem_cons_self n rest)
    have hstep : keysOf (setKey n (some "operational") m) = keysOf m ++ [n] :=
      keysOf_setKey_not_mem hn
    rw [ih (setKey n (some "operational") m) hnd.of_cons, hstep, List.append_assoc]
    · rfl
    · intro x hx
      rw [hstep, List.mem_append, List.mem_singleton]
      push_neg
      exact ⟨hfresh x (List.mem_cons_of_mem n hx),
        fun hxn => (List.nodup_cons.mp hnd).1 (hxn ▸ hx)⟩

theorem keysOf_buildSeed (names : List String) (hnd : names.Nodup) :
    keysOf (buildSeed names) = names := by
  unfold buildSeed
  rw [keysOf_buildSeed_aux names [] hnd (by intro n _; simp [keysOf])]
  rfl

theorem setAffected_ok_findVal {sev : Status} :
    ∀ {aff : List String} {m m' : SysMap}, setAffected sev aff m = .ok m' →
      ∀ s, (s ∈ aff → findVal s m' = some sev) ∧
        (s ∉ aff → findVal s m' = findVal s m) := by
  intro aff
  induction aff with
  | nil =>
    intro m m' h s
    simp only [setAffected, Except.ok.injEq] at h
    subst h
    exact ⟨fun hs => absurd hs (List.not_mem_nil s), fun _ => rfl⟩
  | cons a rest ih =>
    intro m m' h s
    by_cases ha : a ∈ keysOf m
    · simp only [setAffected, if_pos ha] at h
      constructor
      · intro hs
        rcases List.mem_cons.mp hs with hs | hs
        · subst hs
          by_cases hr : s ∈ rest
          · exact (ih h s).1 hr
          · rw [(ih h s).2 hr, findVal_setKey_self]
        · exact (ih h s).1 hs
      · intro hs
        rw [List.mem_cons] at hs
        push_neg at hs
        rw [(ih h s).2 hs.2, findVal_setKey_other _ _ (Ne.symm hs.1)]
    · simp [setAffected, ha] at h

theorem setAffected_error (sev : Status) :
    ∀ {aff : List String} {m : SysMap}, (∃ a ∈ aff, a ∉ keysOf m) →
      setAffected sev aff m = .error () := by
  intro aff
  induction aff with
  | nil =>
    intro m h
    rcases h with ⟨a, ha, _⟩
    exact absurd ha (List.not_mem_nil a)
  | cons a rest ih =>
    intro m h
    by_cases ha : a ∈ keysOf m
    · rcases h with ⟨b, hb, hbk⟩
      have hbr : b ∈ rest := by
        rcases List.mem_cons.mp hb with hb | hb
        · exact absurd (hb ▸ ha) hbk
        · exact hb
      simp only [setAffected, if_pos ha]
      exact ih ⟨b, hbr, fun hc => hbk ((keysOf_setKey_mem ha) ▸ hc)⟩
    · simp [setAffected, ha]

theorem setAffected_ok_of_subset (sev : Status) :
    ∀ {aff : List String} {m : SysMap}, (∀ a ∈ aff, a ∈ keysOf m) →
      ∃ m', setAffected sev aff m = .ok m' := by
  intro aff
  induction aff with
  | nil =>
    intro m _
    exact ⟨m, rfl⟩
  | cons a rest ih =>
    intro m h
    have ha : a ∈ keysOf m := h a (List.mem_cons_self a rest)
    simp only [setAffected, if_pos ha]
    exact ih (fun b hb => (keysOf_setKey_mem ha) ▸ h b (List.mem_cons_of_mem a hb))

theorem getLast?_cons_ne_none (y : α) (ys : List α) : (y :: ys).getLast? ≠ none := by
  induction ys generalizing y with
  | nil => simp [List.getLast?]
  | cons z zs ih =>
    rw [List.getLast?_cons_cons]
    exact ih z

theorem processIssues_ok_findVal {sc : String} {sl : List (String × String)} :
    ∀ {issues : List Issue} {m m' : SysMap},
      processIssues sc sl issues m = .ok m' → ∀ s,
        findVal s m' = match (openAffecting issues sc s).getLast? with
          | none => findVal s m
          | some i => some (get_severity i.labels sl) := by
  intro issues
  induction issues with
  | nil =>
    intro m m' h s
    simp only [processIssues, Except.ok.injEq] at h
    subst h
    simp [openAffecting]
  | cons i rest ih =>
    intro m m' h s
    by_cases hst : i.state = "open"
    · simp only [processIssues, if_pos hst] at h
      cases hset : setAffected (get_severity i.labels sl) (iter_systems i.labels sc) m with
      | error e =>
        rw [hset] at h
        cases h
      | ok m₁ =>
        rw [hset] at h
        by_cases haff : s ∈ iter_systems i.labels sc
        · have hoa : openAffecting (i :: rest) sc s = i :: openAffecting rest sc s := by
            simp [openAffecting, List.filter_cons, hst, haff]
          rw [hoa]
          cases hrest : (openAffecting rest sc s).getLast? with
          | some j =>
            have : (i :: openAffecting rest sc s).getLast? = some j := by
              cases hL : openAffecting rest sc s with
              | nil => rw [hL] at hrest; cases hrest
              | cons y ys =>
                rw [hL] at hrest
                rw [List.getLast?_cons_cons, hrest]
            rw [this]
            have := ih h s
            rw [hrest] at this
            exact this
          | none =>
            have hL : openAffecting rest sc s = [] := by
              cases hL : openAffecting rest sc s with
              | nil => rfl
              | cons y ys =>
                rw [hL] at hrest
                exact absurd hrest (getLast?_cons_ne_none y ys)
            rw [hL]
            have hval := ih h s
            rw [hL] at hval
            simp only [List.getLast?_nil] at hval
            simp only [List.getLast?_singleton]
            rw [hval, (setAffected_ok_findVal hset s).1 haff]
        · have hoa : openAffecting (i :: rest) sc s = openAffecting rest sc s := by
            simp [openAffecting, List.filter_cons, hst, haff]
          rw [hoa]
          have hval := ih h s
          cases hrest : (openAffecting rest sc s).getLast? with
          | some j =>
            rw [hrest] at hval
            exact hval
          | none =>
            rw [hrest] at hval
            simp only at hval
            rw [hval, (setAffected_ok_findVal hset s).2 haff]
    · simp only [processIssues, if_neg hst] at h
      have hoa : openAffecting (i :: rest) sc s = openAffecting rest sc s := by
        simp [openAffecting, List.filter_cons, hst]
      rw [hoa]
      exact ih h s

theorem processIssues_error {sc : String} {sl : List (String × String)} :
    ∀ {issues : List Issue} {m : SysMap},
      (∃ i ∈ issues, i.state = "open" ∧
        ∃ s ∈ iter_systems i.labels sc, s ∉ keysOf m) →
      processIssues sc sl issues m = .error () := by
  intro issues
  induction issues with
  | nil =>
    intro m h
    rcases h with ⟨i, hi, _⟩
    exact absurd hi (List.not_mem_nil i)
  | cons i rest ih =>
    intro m h
    rcases h with ⟨j, hj, hjopen, s, hs, hsk⟩
    by_cases hst : i.state = "open"
    · simp only [processIssues, if_pos hst]
      cases hset : setAffected (get_severity i.labels sl) (iter_systems i.labels sc) m with
      | error e => rfl
      | ok m₁ =>
        have hjr : j ∈ rest := by
          rcases List.mem_cons.mp hj with hj | hj
          · subst hj
            have := setAffected_error (get_severity j.labels sl)
              ⟨s, hs, hsk⟩
            rw [this] at hset
            cases hset
          · exact hj
        exact ih ⟨j, hjr, hjopen, s, hs, fun hc =>
          hsk ((setAffected_ok_keys hset) ▸ hc)⟩
    · simp only [processIssues, if_neg hst]
      have hjr : j ∈ rest := by
        rcases List.mem_cons.mp hj with hj | hj
        · exact absurd (hj ▸ hjopen) hst
        · exact hj
      exact ih ⟨j, hjr, hjopen, s, hs, hsk⟩

theorem processIssues_ok_of_subset {sc : String} {sl : List (String × String)} :
    ∀ {issues : List Issue} {m : SysMap},
      (∀ i ∈ issues, i.state = "open" →
        ∀ s ∈ iter_systems i.labels sc, s ∈ keysOf m) →
      ∃ m', processIssues sc sl issues m = .ok m' := by
  intro issues
  induction issues with
  | nil =>
    intro m _
    exact ⟨m, rfl⟩
  | cons i rest ih =>
    intro m h
    by_cases hst : i.state = "open"
    · obtain ⟨m₁, hset⟩ :=
        setAffected_ok_of_subset (get_severity i.labels sl)
          (h i (List.mem_cons_self i rest) hst)
      simp only [processIssues, if_pos hst, hset]
      exact ih (fun j hj hjo s hsm =>
        (setAffected_ok_keys hset) ▸ h j (List.mem_cons_of_mem i hj) hjo s hsm)
    · simp only [processIssues, if_neg hst]
      exact ih (fun j hj hjo s hsm => h j (List.mem_cons_of_mem i hj) hjo s hsm)

theorem mem_iter_systems {labels : List Label} {sc n : String} :
    n ∈ iter_systems labels sc ↔ ∃ l ∈ labels, l.color = sc ∧ l.name = n := by
  simp only [iter_systems, List.mem_map, List.mem_filter, decide_eq_true_eq]
  constructor
  · rintro ⟨l, ⟨hl, hc⟩, hn⟩
    exact ⟨l, hl, hc, hn⟩
  · rintro ⟨l, hl, hc, hn⟩
    exact ⟨l, ⟨hl, hc⟩, hn⟩

/-- The default status-label mapping (severity name -> display color). -/
def sl0 : List (String × String) :=
  [("investigating", "1192FC"), ("degraded performance", "FFA500"),
   ("major outage", "FF4D4D")]

/-- Fixture: the system label `api` with the default system color. -/
def apiLabel : Label := ⟨"api", "171717"⟩

/-- Fixture: the severity label `major outage`. -/
def outageLabel : Label := ⟨"major outage", "FF4D4D"⟩

/-- Fixture: a system label carried by an issue but absent from the repo. -/
def ghostLabel : Label := ⟨"ghost", "171717"⟩

/-- Fixture repository with one system label and one collaborator. -/
def repo0 : Repo := ⟨[apiLabel], ["alice"]⟩

/-- Fixture: an open issue carrying the `api` system label and no severity
label. -/
def issueNoSev : Issue := ⟨"open", "t1", "b1", 10, "alice", [apiLabel], []⟩

/-- Fixture: an open issue carrying the `api` system label and the
`major outage` severity label. -/
def issueOutage : Issue :=
  ⟨"open", "t2", "b2", 20, "alice", [apiLabel, outageLabel], []⟩

/-- Fixture: an open issue carrying a system-colored label that the
repository does not have. -/
def issueGhost : Issue := ⟨"open", "t3", "b3", 30, "alice", [ghostLabel], []⟩

/-- C1 counterexample: one system label `api`, one open issue that carries
`api` but no severity label.  No open issue with the `api` label carries a
severity label, yet the derived status for `api` is the literal `None`,
not `"operational"`, so the claimed iff fails in its right-to-left
direction. -/
theorem get_systems_operational_iff_cex :
    get_systems repo0 [issueNoSev] "171717" sl0 = .ok [("api", none)] ∧
    get_severity issueNoSev.labels sl0 = none ∧
    issueNoSev.state = "open" ∧
    "api" ∈ iter_systems issueNoSev.labels "171717" ∧
    findVal "api" [(("api" : String), (none : Status))] ≠ some (some "operational") := by
  refine ⟨rfl, by decide, by decide, by decide, by decide⟩

/-- C1 (amended): for a label set with unique names, a successful
`get_systems` run returns a mapping with exactly one entry per label whose
color equals the system color, its keys in ascending lexicographic order,
and each entry's status is the severity (possibly `None`) of the last open
issue carrying that system's label, or `"operational"` when no open issue
carries it (last write wins). -/
theorem get_systems_spec (repo : Repo) (issues : List Issue) (sc : String)
    (sl : List (String × String)) (m : SysMap)
    (hnd : (repo.labels.map Label.name).Nodup)
    (h : get_systems repo issues sc sl = .ok m) :
    (keysOf m).Nodup ∧ List.Pairwise (· ≤ ·) (keysOf m) ∧
    (∀ n, n ∈ keysOf m ↔ ∃ l ∈ repo.labels, l.color = sc ∧ l.name = n) ∧
    (∀ s ∈ keysOf m, findVal s m = some (finalStatus issues sc sl s)) := by
  have hnames : (iter_systems repo.labels sc).Nodup := by
    have hsub : List.Sublist (iter_systems repo.labels sc)
        (repo.labels.map Label.name) :=
      (List.filter_sublist repo.labels).map Label.name
    exact hnd.sublist hsub
  have hsortnd : (sortStrs (iter_systems repo.labels sc)).Nodup :=
    ((sortStrs_perm _).nodup_iff).mpr hnames
  have hseed : keysOf (buildSeed (sortStrs (iter_systems repo.labels sc))) =
      sortStrs (iter_systems repo.labels sc) := keysOf_buildSeed _ hsortnd
  have hkeys : keysOf m = sortStrs (iter_systems repo.labels sc) := by
    rw [processIssues_ok_keys h, hseed]
  refine ⟨?_, ?_, ?_, ?_⟩
  · rw [hkeys]; exact hsortnd
  · rw [hkeys]; exact sorted_sortStrs _
  · intro n
    rw [hkeys, (sortStrs_perm _).mem_iff, mem_iter_systems]
  · intro s hs
    have hseedmem : s ∈ sortStrs (iter_systems repo.labels sc) := hkeys ▸ hs
    have hval := processIssues_ok_findVal h s
    unfold finalStatus
    cases hlast : (openAffecting issues sc s).getLast? with
    | none =>
      rw [hlast] at hval
      simp only at hval
      rw [hval, findVal_buildSeed, if_pos hseedmem]
    | some i =>
      rw [hlast] at hval
      exact hval

/-- Witness for the amended C1: at the fixture input the single system's
final status is the severity of the last (only) open issue affecting it. -/
theorem get_systems_spec_witness :
    findVal "api" [(("api" : String), (some "major outage" : Status))] =
      some (finalStatus [issueOutage] "171717" sl0 "api") :=
  (get_systems_spec repo0 [issueOutage] "171717" sl0
      [("api", some "major outage")] (by decide) rfl).2.2.2 "api" (by decide)

/-- C2 counterexample: an open issue with the `api` system label and no
severity label is followed (in iteration order) by an open issue carrying a
severity label for the same system; the resulting mapping records that
severity, not `None`, so the claim as stated fails without a
last-write-wins side condition. -/
theorem get_systems_none_cex :
    get_systems repo0 [issueNoSev, issueOutage] "171717" sl0 =
      .ok [("api", some "major outage")] ∧
    issueNoSev.state = "open" ∧
    "api" ∈ iter_systems issueNoSev.labels "171717" ∧
    get_severity issueNoSev.labels sl0 = none ∧
    findVal "api" [(("api" : String), (some "major outage" : Status))] ≠
      some none := by
  refine ⟨rfl, by decide, by decide, by decide, by decide⟩

/-- C2 (amended): when a successful `get_systems` run processes an open
issue that carries a system-colored label but no severity label, and no
later issue in iteration order is an open issue carrying that system's
label, the resulting mapping records the literal `None` (not
`"operational"`) for that system. -/
theorem get_systems_none_overwrite (repo : Repo) (pre post : List Issue)
    (i : Issue) (sc : String) (sl : List (String × String)) (m : SysMap)
    (s : String)
    (h : get_systems repo (pre ++ i :: post) sc sl = .ok m)
    (hopen : i.state = "open") (hs : s ∈ iter_systems i.labels sc)
    (hsev : get_severity i.labels sl = none)
    (hlast : ∀ j ∈ post, j.state = "open" → s ∉ iter_systems j.labels sc) :
    findVal s m = some none := by
  have hval := processIssues_ok_findVal h s
  have hpost : openAffecting post sc s = [] := by
    apply List.filter_eq_nil_iff.mpr
    intro j hj
    simp only [decide_eq_true_eq, not_and]
    intro hjo
    exact hlast j hj hjo
  have hcond : decide (i.state = "open" ∧ s ∈ iter_systems i.labels sc) = true := by
    simp [hopen, hs]
  have hsplit : openAffecting (pre ++ i :: post) sc s =
      openAffecting pre sc s ++ [i] := by
    unfold openAffecting at hpost ⊢
    rw [List.filter_append, List.filter_cons]
    simp [hcond, hpost]
    exact hlast
  rw [hsplit, List.getLast?_concat] at hval
  simp only at hval
  rw [hval, hsev]

/-- Witness for the amended C2: a single open no-severity issue leaves the
literal `None` as the system's recorded status. -/
theorem get_systems_none_overwrite_witness :
    findVal "api" [(("api" : String), (none : Status))] = some none :=
  get_systems_none_overwrite repo0 [] [] issueNoSev "171717" sl0
    [("api", none)] "api" rfl (by decide) (by decide) (by decide)
    (fun j hj => absurd hj (List.not_mem_nil j))

/-- C3: `get_systems` fails with a lookup error exactly when some open
issue carries a system-colored label whose name is not among the seeded
system keys; under the precondition that every system-colored label on an
open issue is one of the repository's labels, the error branch is
unreachable and the function returns normally. -/
theorem get_systems_keyerror (repo : Repo) (issues : List Issue) (sc : String)
    (sl : List (String × String)) :
    ((∃ i ∈ issues, i.state = "open" ∧
        ∃ l ∈ i.labels, l.color = sc ∧ l.name ∉ seedKeys repo sc) →
      get_systems repo issues sc sl = .error ()) ∧
    ((∀ i ∈ issues, i.state = "open" → ∀ l ∈ i.labels, l.color = sc →
        l ∈ repo.labels) →
      ∃ m, get_systems repo issues sc sl = .ok m) := by
  constructor
  · rintro ⟨i, hi, hio, l, hl, hlc, hlk⟩
    apply processIssues_error
    refine ⟨i, hi, hio, l.name, mem_iter_systems.mpr ⟨l, hl, hlc, rfl⟩, ?_⟩
    exact hlk
  · intro hpre
    apply processIssues_ok_of_subset
    intro i hi hio s hsm
    rcases mem_iter_systems.mp hsm with ⟨l, hl, hlc, hln⟩
    have : l ∈ repo.labels := hpre i hi hio l hl hlc
    exact mem_seedKeys.mpr (mem_iter_systems.mpr ⟨l, this, hlc, hln⟩)

/-- Witness for C3: an open issue carrying an unseeded system-colored
label makes `get_systems` return the modelled `KeyError`. -/
theorem get_systems_keyerror_witness :
    get_systems repo0 [issueGhost] "171717" sl0 = .error () :=
  (get_systems_keyerror repo0 [issueGhost] "171717" sl0).1
    ⟨issueGhost, by decide, by decide, ghostLabel, by decide, by decide,
      by decide⟩

theorem sortStrs_eq_nil_iff {l : List String} : sortStrs l = [] ↔ l = [] := by
  constructor
  · intro h
    have hp := sortStrs_perm l
    rw [h] at hp
    exact hp.nil_eq.symm
  · intro h
    rw [h]
    rfl

/-- One update entry of an incident: a collaborator comment with its
creation time and markdown-rendered body. -/
structure Update where
  created : Nat
  body : String
deriving DecidableEq, Repr

/-- An incident record as built by `get_incidents`. -/
structure Incident where
  created : Nat
  title : String
  systems : List String
  severity : Option String
  closed : Bool
  body : String
  updates : List Update
deriving DecidableEq, Repr

/-- The per-issue body of the `get_incidents` loop: skip when there is no
affected system or the issue is open without severity, skip non-collaborator
authors, otherwise build the incident (collaborator comments become
updates).  `md` is the external markdown renderer. -/
def mkIncident (md : String → String) (collaborators : List String)
    (sc : String) (sl : List (String × String)) (issue : Issue) :
    Option Incident :=
  let affected_systems := sortStrs (iter_systems issue.labels sc)
  let severity := get_severity issue.labels sl
  if affected_systems = [] ∨ (severity = none ∧ issue.state ≠ "closed") then
    none
  else if issue.user ∉ collaborators then
    none
  else
    some
      { created := issue.created_at
        title := issue.title
        systems := affected_systems
        severity := severity
        closed := issue.state == "closed"
        body := md issue.body
        updates := (issue.comments.filter
            (fun c => c.user ∈ collaborators)).map
          (fun c => { created := c.created_at, body := md c.body }) }

/-- Stable descending insertion by `created` (embedding of Python
`sorted(..., key=lambda i: i["created"], reverse=True)`, which is a stable
sort). -/
def insertIncident (x : Incident) : List Incident → List Incident
  | [] => [x]
  | y :: ys =>
    if y.created ≤ x.created then x :: y :: ys else y :: insertIncident x ys

/-- Stable sort of incidents by `created` descending, ties in input order. -/
def sortIncidents : List Incident → List Incident
  | [] => []
  | x :: xs => insertIncident x (sortIncidents xs)

/-- `get_incidents(repo, issues, system_color, status_labels)` from the
source, with the markdown renderer `md` as an explicit external
collaborator. -/
def get_incidents (repo : Repo) (issues : List Issue) (sc : String)
    (sl : List (String × String)) (md : String → String) : List Incident :=
  sortIncidents (issues.filterMap (mkIncident md repo.collaborators sc sl))

theorem mem_insertIncident {a x : Incident} {l : List Incident} :
    a ∈ insertIncident x l ↔ a = x ∨ a ∈ l := by
  induction l with
  | nil => simp [insertIncident]
  | cons y ys ih =>
    by_cases h : y.created ≤ x.created <;> simp [insertIncident, h, ih] <;> tauto

theorem mem_sortIncidents {a : Incident} {l : List Incident} :
    a ∈ sortIncidents l ↔ a ∈ l := by
  induction l with
  | nil => simp [sortIncidents]
  | cons x xs ih => simp [sortIncidents, mem_insertIncident, ih]

theorem pairwise_insertIncident {x : Incident} {l : List Incident}
    (h : List.Pairwise (fun a b => b.created ≤ a.created) l) :
    List.Pairwise (fun a b => b.created ≤ a.created) (insertIncident x l) := by
  induction l with
  | nil => simp [insertIncident]
  | cons y ys ih =>
    by_cases hxy : y.created ≤ x.created
    · simp only [insertIncident, if_pos hxy]
      refine List.Pairwise.cons ?_ h
      intro z hz
      rcases List.mem_cons.mp hz with hz | hz
      · exact hz ▸ hxy
      · exact le_trans (List.rel_of_pairwise_cons h hz) hxy
    · have hyx : x.created ≤ y.created := le_of_not_le hxy
      simp only [insertIncident, if_neg hxy]
      refine List.Pairwise.cons ?_ (ih h.of_cons)
      intro z hz
      rcases mem_insertIncident.mp hz with hz | hz
      · exact hz ▸ hyx
      · exact List.rel_of_pairwise_cons h hz

theorem pairwise_sortIncidents (l : List Incident) :
    List.Pairwise (fun a b => b.created ≤ a.created) (sortIncidents l) := by
  induction l with
  | nil => simp [sortIncidents]
  | cons x xs ih => exact pairwise_insertIncident ih

theorem filter_insertIncident (x : Incident) (l : List Incident) (k : Nat) :
    (insertIncident x l).filter (fun i => i.created == k) =
      if x.created = k then
        x :: l.filter (fun i => i.created == k)
      else l.filter (fun i => i.created == k) := by
  induction l with
  | nil =>
    by_cases hx : x.created = k
    · simp [insertIncident, List.filter, hx]
    · have hb : (x.created == k) = false := by
        simp [hx]
      simp [insertIncident, List.filter, hb, hx]
  | cons y ys ih =>
    by_cases hxy : y.created ≤ x.created
    · simp only [insertIncident, if_pos hxy]
      by_cases hx : x.created = k <;> simp [List.filter_cons, hx]
    · simp only [insertIncident, if_neg hxy]
      by_cases hx : x.created = k
      · have hy : ¬ y.created = k := by
          intro hy
          exact hxy (le_of_eq (hy.trans hx.symm))
        simp [List.filter_cons, hx, hy, ih]
      · by_cases hy : y.created = k <;> simp [List.filter_cons, hx, hy, ih]

theorem filter_sortIncidents (l : List Incident) (k : Nat) :
    (sortIncidents l).filter (fun i => i.created == k) =
      l.filter (fun i => i.created == k) := by
  induction l with
  | nil => simp [sortIncidents]
  | cons x xs ih =>
    simp only [sortIncidents, filter_insertIncident, ih]
    by_cases hx : x.created = k <;> simp [List.filter_cons, hx]

/-- C4: `get_incidents` produces an incident for an issue iff the issue has
a system-colored label, has a severity label or is closed, and its author
is a collaborator (so closed issues without severity are included while
open ones are not); the output consists exactly of the incidents of such
issues, sorted by creation time descending with ties kept in original fetch
order (stability expressed as: filtering any creation time yields the same
sequence as in the unsorted collection). -/
theorem get_incidents_spec (repo : Repo) (issues : List Issue) (sc : String)
    (sl : List (String × String)) (md : String → String) :
    (∀ issue ∈ issues,
      (mkIncident md repo.collaborators sc sl issue).isSome = true ↔
        (iter_systems issue.labels sc ≠ [] ∧
          (get_severity issue.labels sl ≠ none ∨ issue.state = "closed") ∧
          issue.user ∈ repo.collaborators)) ∧
    (∀ inc, inc ∈ get_incidents repo issues sc sl md ↔
      ∃ issue ∈ issues, mkIncident md repo.collaborators sc sl issue = some inc) ∧
    List.Pairwise (fun a b => b.created ≤ a.created)
      (get_incidents repo issues sc sl md) ∧
    (∀ k, (get_incidents repo issues sc sl md).filter
        (fun i => i.created == k) =
      (issues.filterMap (mkIncident md repo.collaborators sc sl)).filter
        (fun i => i.created == k)) := by
  refine ⟨?_, ?_, ?_, ?_⟩
  · intro issue _
    unfold mkIncident
    constructor
    · intro hsome
      by_cases h1 : sortStrs (iter_systems issue.labels sc) = [] ∨
          (get_severity issue.labels sl = none ∧ issue.state ≠ "closed")
      · rw [if_pos h1] at hsome
        simp at hsome
      · by_cases h2 : issue.user ∉ repo.collaborators
        · rw [if_neg h1, if_pos h2] at hsome
          simp at hsome
        · push_neg at h1 h2
          refine ⟨fun hnil => h1.1 (sortStrs_eq_nil_iff.mpr hnil), ?_, h2⟩
          by_cases hsev : get_severity issue.labels sl = none
          · exact Or.inr (h1.2 hsev)
          · exact Or.inl hsev
    · rintro ⟨hsys, hsev, huser⟩
      have h1 : ¬ (sortStrs (iter_systems issue.labels sc) = [] ∨
          (get_severity issue.labels sl = none ∧ issue.state ≠ "closed")) := by
        push_neg
        refine ⟨fun hnil => hsys (sortStrs_eq_nil_iff.mp hnil), ?_⟩
        intro hn
        rcases hsev with hsev | hsev
        · exact absurd hn hsev
        · exact hsev
      rw [if_neg h1, if_neg (by simp [huser])]
      simp
  · intro inc
    unfold get_incidents
    rw [mem_sortIncidents, List.mem_filterMap]
  · exact pairwise_sortIncidents _
  · intro k
    exact filter_sortIncidents _ k

/-- Fixture: a closed issue carrying the `api` system label and no
severity label. -/
def issueClosed : Issue := ⟨"closed", "t4", "b4", 5, "alice", [apiLabel], []⟩

/-- Witness for C4: a closed issue with a system label and no severity
label yields an incident that appears in the collected output. -/
theorem get_incidents_spec_witness :
    (⟨5, "t4", ["api"], none, true, "b4", []⟩ : Incident) ∈
      get_incidents repo0 [issueClosed] "171717" sl0 id :=
  ((get_incidents_spec repo0 [issueClosed] "171717" sl0 id).2.1
      ⟨5, "t4", ["api"], none, true, "b4", []⟩).mpr
    ⟨issueClosed, by decide, by rfl⟩

/-- Python `panels[status].append(system)` when the status key exists
(keeping its position in the ordered dict) and `panels[status] = [system]`
otherwise (appending the new key at the end). -/
def addPanel (st : Status) (n : String) :
    List (Status × List String) → List (Status × List String)
  | [] => [(st, [n])]
  | (k, v) :: rest =>
    if k = st then (k, v ++ [n]) :: rest else (k, v) :: addPanel st n rest

/-- The loop of `get_panels` over the systems mapping, accumulator style. -/
def panelsGo : List (String × Status) → List (Status × List String) →
    List (Status × List String)
  | [], acc => acc
  | (n, st) :: rest, acc =>
    if st ≠ some "operational" then panelsGo rest (addPanel st n acc)
    else panelsGo rest acc

/-- `get_panels(systems)` from the source: group the non-operational
systems by status, keys in first-seen order. -/
def get_panels (systems : List (String × Status)) :
    List (Status × List String) :=
  panelsGo systems []

/-- First-occurrence deduplication: keep the first copy of each element. -/
def firstDedup : List Status → List Status
  | [] => []
  | x :: xs => x :: firstDedup (xs.filter (fun y => y ≠ x))
termination_by l => l.length
decreasing_by
  exact Nat.lt_succ_of_le (List.length_filter_le _ xs)

/-- The statuses of the non-operational entries, in mapping order. -/
def nonOpSts (systems : List (String × Status)) : List Status :=
  (systems.filter (fun p => p.2 ≠ some "operational")).map Prod.snd

/-- The names of the entries carrying status `st`, in mapping order. -/
def namesWith (st : Status) (systems : List (String × Status)) : List String :=
  (systems.filter (fun p => p.2 = st)).map Prod.fst

/-- Spec-side closed form of the panel builder (4.4 of the spec): one key
per non-operational status in first-seen order, each carrying the names of
the systems with that status in mapping order. -/
def panelsSpec (systems : List (String × Status)) :
    List (Status × List String) :=
  (firstDedup (nonOpSts systems)).map (fun st => (st, namesWith st systems))

theorem mem_firstDedup_le : ∀ (fuel : Nat) (l : List Status) (a : Status),
    l.length ≤ fuel → (a ∈ firstDedup l ↔ a ∈ l) := by
  intro fuel
  induction fuel with
  | zero =>
    intro l a hl
    have : l = [] := List.eq_nil_of_length_eq_zero (Nat.le_zero.mp hl)
    subst this
    simp [firstDedup]
  | succ n ihn =>
    intro l a hl
    cases l with
    | nil => simp [firstDedup]
    | cons x xs =>
      rw [firstDedup]
      simp only [List.mem_cons]
      by_cases hax : a = x
      · simp [hax]
      · have hlen : (xs.filter (fun y => y ≠ x)).length ≤ n :=
          le_trans (List.length_filter_le _ xs)
            (Nat.le_of_succ_le_succ hl)
        rw [ihn _ a hlen, List.mem_filter]
        simp [hax]

theorem mem_firstDedup {a : Status} {l : List Status} :
    a ∈ firstDedup l ↔ a ∈ l :=
  mem_firstDedup_le l.length l a le_rfl

theorem nodup_firstDedup_le : ∀ (fuel : Nat) (l : List Status),
    l.length ≤ fuel → (firstDedup l).Nodup := by
  intro fuel
  induction fuel with
  | zero =>
    intro l hl
    have : l = [] := List.eq_nil_of_length_eq_zero (Nat.le_zero.mp hl)
    subst this
    simp [firstDedup]
  | succ n ihn =>
    intro l hl
    cases l with
    | nil => simp [firstDedup]
    | cons x xs =>
      rw [firstDedup]
      have hlen : (xs.filter (fun y => y ≠ x)).length ≤ n :=
        le_trans (List.length_filter_le _ xs) (Nat.le_of_succ_le_succ hl)
      refine List.Nodup.cons ?_ (ihn _ hlen)
      intro hx
      have := (mem_firstDedup_le n _ x hlen).mp hx
      rw [List.mem_filter] at this
      simp at this

theorem nodup_firstDedup (l : List Status) : (firstDedup l).Nodup :=
  nodup_firstDedup_le l.length l le_rfl

theorem firstDedup_append_singleton_le : ∀ (fuel : Nat) (l : List Status)
    (a : Status), l.length ≤ fuel →
    firstDedup (l ++ [a]) =
      if a ∈ l then firstDedup l else firstDedup l ++ [a] := by
  intro fuel
  induction fuel with
  | zero =>
    intro l a hl
    have : l = [] := List.eq_nil_of_length_eq_zero (Nat.le_zero.mp hl)
    subst this
    simp [firstDedup]
  | succ n ihn =>
    intro l a hl
    cases l with
    | nil => simp [firstDedup]
    | cons x xs =>
      have hlen : (xs.filter (fun y => y ≠ x)).length ≤ n :=
        le_trans (List.length_filter_le _ xs) (Nat.le_of_succ_le_succ hl)
      rw [List.cons_append, firstDedup, firstDedup]
      by_cases hax : a = x
      · subst hax
        have hfil : (xs ++ [a]).filter (fun y => y ≠ a) =
            xs.filter (fun y => y ≠ a) := by
          rw [List.filter_append]
          simp
        rw [hfil]
        simp
      · have hfil : (xs ++ [a]).filter (fun y => y ≠ x) =
            xs.filter (fun y => y ≠ x) ++ [a] := by
          rw [List.filter_append]
          simp [hax]
        rw [hfil, ihn _ a hlen]
        by_cases hmem : a ∈ xs
        · have : a ∈ xs.filter (fun y => y ≠ x) := by
            rw [List.mem_filter]
            simp [hmem, hax]
          simp [this, List.mem_cons, hmem, hax]
        · have : a ∉ xs.filter (fun y => y ≠ x) := by
            intro hc
            exact hmem (List.mem_of_mem_filter hc)
          simp [this, List.mem_cons, hmem, hax]

theorem firstDedup_append_singleton (l : List Status) (a : Status) :
    firstDedup (l ++ [a]) =
      if a ∈ l then firstDedup l else firstDedup l ++ [a] :=
  firstDedup_append_singleton_le l.length l a le_rfl

theorem addPanel_map_mem (f : Status → List String) {keys : List Status}
    {st : Status} (n : String) (hmem : st ∈ keys) (hnd : keys.Nodup) :
    addPanel st n (keys.map (fun k => (k, f k))) =
      keys.map (fun k => (k, if k = st then f k ++ [n] else f k)) := by
  induction keys with
  | nil => cases hmem
  | cons k0 rest ih =>
    by_cases hk : k0 = st
    · subst hk
      simp only [List.map_cons, addPanel, if_pos rfl, if_pos]
      congr 1
      have hst : ∀ k ∈ rest, ¬ k = k0 := fun k hk' hkk =>
        (List.nodup_cons.mp hnd).1 (hkk ▸ hk')
      apply List.map_congr_left
      intro k hk'
      simp [hst k hk']
    · have hmem' : st ∈ rest := by
        rcases List.mem_cons.mp hmem with h | h
        · exact absurd h.symm hk
        · exact h
      simp only [List.map_cons, addPanel, if_neg hk]
      rw [ih hmem' hnd.of_cons]

theorem addPanel_map_not_mem (f : Status → List String) {keys : List Status}
    {st : Status} (n : String) (hmem : st ∉ keys) :
    addPanel st n (keys.map (fun k => (k, f k))) =
      keys.map (fun k => (k, f k)) ++ [(st, [n])] := by
  induction keys with
  | nil => simp [addPanel]
  | cons k0 rest ih =>
    have hk : ¬ k0 = st := fun h => hmem (h ▸ List.mem_cons_self k0 rest)
    simp only [List.map_cons, addPanel, if_neg hk, List.cons_append]
    rw [ih (fun h => hmem (List.mem_cons_of_mem k0 h))]

theorem nonOpSts_append_op (l : List (String × Status)) (n : String) :
    nonOpSts (l ++ [(n, some "operational")]) = nonOpSts l := by
  simp [nonOpSts, List.filter_append]

theorem nonOpSts_append_nonop (l : List (String × Status)) (n : String)
    {st : Status} (hst : st ≠ some "operational") :
    nonOpSts (l ++ [(n, st)]) = nonOpSts l ++ [st] := by
  simp [nonOpSts, List.filter_append, hst]

theorem namesWith_append (k st : Status) (n : String)
    (l : List (String × Status)) :
    namesWith k (l ++ [(n, st)]) =
      namesWith k l ++ (if st = k then [n] else []) := by
  by_cases h : st = k <;> simp [namesWith, List.filter_append, h]

theorem mem_nonOpSts_ne_op {k : Status} {l : List (String × Status)}
    (h : k ∈ nonOpSts l) : k ≠ some "operational" := by
  simp only [nonOpSts, List.mem_map, List.mem_filter, decide_eq_true_eq] at h
  rcases h with ⟨p, ⟨_, hp⟩, hk⟩
  exact hk ▸ hp

theorem namesWith_nil_of_not_mem {st : Status} {l : List (String × Status)}
    (hst : st ≠ some "operational") (h : st ∉ nonOpSts l) :
    namesWith st l = [] := by
  unfold namesWith
  rw [List.filter_eq_nil_iff.mpr]
  · rfl
  · intro p hp
    simp only [decide_eq_true_eq]
    intro hpeq
    apply h
    simp only [nonOpSts, List.mem_map]
    refine ⟨p, List.mem_filter.mpr ⟨hp, ?_⟩, hpeq⟩
    simp [hpeq, hst]

theorem panelsSpec_append_op (l : List (String × Status)) (n : String) :
    panelsSpec (l ++ [(n, some "operational")]) = panelsSpec l := by
  unfold panelsSpec
  rw [nonOpSts_append_op]
  apply List.map_congr_left
  intro k hk
  have hkop : k ≠ some "operational" := mem_nonOpSts_ne_op (mem_firstDedup.mp hk)
  have hne : ¬ some "operational" = k := fun h => hkop h.symm
  rw [namesWith_append]
  simp [hne]

theorem panelsSpec_append_nonop (l : List (String × Status)) (n : String)
    {st : Status} (hst : st ≠ some "operational") :
    panelsSpec (l ++ [(n, st)]) = addPanel st n (panelsSpec l) := by
  unfold panelsSpec
  rw [nonOpSts_append_nonop l n hst, firstDedup_append_singleton]
  by_cases hmem : st ∈ nonOpSts l
  · rw [if_pos hmem,
      addPanel_map_mem (fun k => namesWith k l) n (mem_firstDedup.mpr hmem)
        (nodup_firstDedup _)]
    apply List.map_congr_left
    intro k hk
    by_cases hkst : k = st
    · subst hkst
      rw [namesWith_append]
      simp
    · have hne : ¬ st = k := fun h => hkst h.symm
      rw [namesWith_append]
      simp [hkst, hne]
  · rw [if_neg hmem,
      addPanel_map_not_mem (fun k => namesWith k l) n
        (fun hc => hmem (mem_firstDedup.mp hc)),
      List.map_append]
    congr 1
    · apply List.map_congr_left
      intro k hk
      have hkne : ¬ st = k := fun h => hmem (h ▸ mem_firstDedup.mp hk)
      rw [namesWith_append]
      simp [hkne]
    · simp only [List.map_cons, List.map_nil, namesWith_append, if_pos rfl]
      rw [namesWith_nil_of_not_mem hst hmem]
      rfl

theorem panelsGo_spec : ∀ (rest done : List (String × Status)),
    panelsGo rest (panelsSpec done) = panelsSpec (done ++ rest) := by
  intro rest
  induction rest with
  | nil =>
    intro done
    simp [panelsGo]
  | cons p rest ih =>
    intro done
    obtain ⟨n, st⟩ := p
    by_cases hst : st ≠ some "operational"
    · simp only [panelsGo, if_pos hst]
      rw [← panelsSpec_append_nonop done n hst, ih (done ++ [(n, st)])]
      simp
    · simp only [panelsGo, if_neg hst]
      push_neg at hst
      subst hst
      rw [show panelsSpec done = panelsSpec (done ++ [(n, some "operational")])
          from (panelsSpec_append_op done n).symm,
        ih (done ++ [(n, some "operational")])]
      simp

theorem panelsSpec_nil : panelsSpec [] = [] := by
  unfold panelsSpec nonOpSts
  rw [show List.filter (fun p => decide (p.2 ≠ some "operational"))
      ([] : List (String × Status)) = [] from rfl]
  rw [show List.map Prod.snd ([] : List (String × Status)) = [] from rfl,
    firstDedup]
  rfl

/-- C5: `get_panels` equals the closed-form panel builder of the spec (one
key per non-operational status in first-seen order, each listing the names
of the systems with that status in iteration order, statuses
`"operational"` skipped); in particular the spec's concrete example holds,
with `"major outage"` first. -/
theorem get_panels_spec :
    (∀ systems : List (String × Status),
      get_panels systems = panelsSpec systems) ∧
    get_panels [("A", some "major outage"), ("B", some "operational"),
        ("C", some "major outage"), ("D", some "degraded performance")] =
      [(some "major outage", ["A", "C"]),
       (some "degraded performance", ["D"])] := by
  constructor
  · intro systems
    unfold get_panels
    rw [← panelsSpec_nil, panelsGo_spec systems [], List.nil_append]
  · rfl

/-- Modulus of 32-bit words. -/
def M32 : Nat := 4294967296

/-- Left rotation of a 32-bit word. -/
def rotl (n x : Nat) : Nat := ((x <<< n) ||| (x >>> (32 - n))) % M32

/-- Big-endian 4-byte groups to 32-bit words. -/
def words4 : List Nat → List Nat
  | b0 :: b1 :: b2 :: b3 :: rest =>
    (((b0 * 256 + b1) * 256 + b2) * 256 + b3) :: words4 rest
  | _ => []

/-- Big-endian 8-byte encoding of the 64-bit bit-length. -/
def lenBytes (bl : Nat) : List Nat :=
  [(bl >>> 56) % 256, (bl >>> 48) % 256, (bl >>> 40) % 256, (bl >>> 32) % 256,
   (bl >>> 24) % 256, (bl >>> 16) % 256, (bl >>> 8) % 256, bl % 256]

/-- SHA-1 message padding: `0x80`, zeros to 56 mod 64, 8 length bytes. -/
def sha1pad (msg : List Nat) : List Nat :=
  msg ++ 0x80 :: (List.replicate ((64 - (msg.length + 9) % 64) % 64) 0 ++
    lenBytes ((8 * msg.length) % 2 ^ 64))

/-- The SHA-1 round function and constant for round `i`. -/
def sha1fk (i b c d : Nat) : Nat × Nat :=
  if i < 20 then
    (((b &&& c) ||| ((b ^^^ 4294967295) &&& d)) % M32, 0x5A827999)
  else if i < 40 then ((b ^^^ c ^^^ d) % M32, 0x6ED9EBA1)
  else if i < 60 then
    (((b &&& c) ||| (b &&& d) ||| (c &&& d)) % M32, 0x8F1BBCDC)
  else ((b ^^^ c ^^^ d) % M32, 0xCA62C1D6)

/-- One extension step of the message schedule (accumulator newest-first). -/
def extendStep (acc : List Nat) : List Nat :=
  rotl 1 (((acc.getD 2 0) ^^^ (acc.getD 7 0)) ^^^
    ((acc.getD 13 0) ^^^ (acc.getD 15 0))) :: acc

/-- The 80-word message schedule of a chunk's 16 words. -/
def scheduleOf (w16 : List Nat) : List Nat :=
  ((List.range 64).foldl (fun acc _ => extendStep acc) w16.reverse).reverse

/-- One SHA-1 round on the five-word state. -/
def sha1round (st : Nat × Nat × Nat × Nat × Nat) (iw : Nat × Nat) :
    Nat × Nat × Nat × Nat × Nat :=
  let (a, b, c, d, e) := st
  let fk := sha1fk iw.1 b c d
  ((rotl 5 a + fk.1 + e + fk.2 + iw.2) % M32, a, rotl 30 b, c, d)

/-- Compression of one 64-byte chunk into the running state. -/
def sha1chunk (h : Nat × Nat × Nat × Nat × Nat) (chunk : List Nat) :
    Nat × Nat × Nat × Nat × Nat :=
  let ws := scheduleOf (words4 chunk)
  let st := ((List.range 80).zip ws).foldl sha1round h
  ((h.1 + st.1) % M32, (h.2.1 + st.2.1) % M32, (h.2.2.1 + st.2.2.1) % M32,
   (h.2.2.2.1 + st.2.2.2.1) % M32, (h.2.2.2.2 + st.2.2.2.2) % M32)

/-- Fuel-indexed fold over the 64-byte chunks of the padded message (the
fuel is an upper bound on the chunk count, making the recursion
structural; padded messages always have fewer chunks than bytes). -/
def sha1chunksGo (fuel : Nat) (h : Nat × Nat × Nat × Nat × Nat)
    (l : List Nat) : Nat × Nat × Nat × Nat × Nat :=
  match fuel, l with
  | _, [] => h
  | 0, _ => h
  | fuel + 1, l => sha1chunksGo fuel (sha1chunk h (l.take 64)) (l.drop 64)

/-- A hex digit character. -/
def hexDigit (n : Nat) : Char :=
  if n < 10 then Char.ofNat (48 + n) else Char.ofNat (87 + n)

/-- Lower-case hex rendering of one 32-bit word. -/
def word2hex (w : Nat) : List Char :=
  [hexDigit ((w >>> 28) % 16), hexDigit ((w >>> 24) % 16),
   hexDigit ((w >>> 20) % 16), hexDigit ((w >>> 16) % 16),
   hexDigit ((w >>> 12) % 16), hexDigit ((w >>> 8) % 16),
   hexDigit ((w >>> 4) % 16), hexDigit (w % 16)]

/-- Hex digest of SHA-1 over a byte list.  The spec treats the hash as an
external black box ("a cryptographic hash ... just change detection",
Python `hashlib.sha1(...).hexdigest()`); it is implemented here concretely
as standard SHA-1. -/
def sha1hex (msg : List Nat) : String :=
  let padded := sha1pad msg
  let h := sha1chunksGo padded.length
    (0x67452301, 0xEFCDAB89, 0x98BADCFE, 0x10325476, 0xC3D2E1F0)
    padded
  String.mk (word2hex h.1 ++ word2hex h.2.1 ++ word2hex h.2.2.1 ++
    word2hex h.2.2.2.1 ++ word2hex h.2.2.2.2)

/-- A content value as passed to `is_same_content`: a Python `str` (a list
of code points) or `bytes` (a list of bytes, e.g. Base64-decoded remote
content). -/
inductive Content
  | str (s : List Nat)
  | bytes (b : List Nat)
deriving DecidableEq, Repr

/-- UTF-8 encoding of one code point (Python `str.encode("utf-8")`). -/
def utf8Char (c : Nat) : List Nat :=
  if c < 128 then [c]
  else if c < 2048 then [192 + c / 64, 128 + c % 64]
  else if c < 65536 then
    [224 + c / 4096, 128 + (c / 64) % 64, 128 + c % 64]
  else
    [240 + c / 262144, 128 + (c / 4096) % 64, 128 + (c / 64) % 64,
     128 + c % 64]

/-- UTF-8 encoding of a code-point sequence. -/
def utf8Encode (s : List Nat) : List Nat := (s.map utf8Char).join

/-- The normalization inside `is_same_content`'s `sha1` helper: a `str` is
encoded to UTF-8 bytes first (the PY3 branch), bytes pass through. -/
def toBytes : Content → List Nat
  | .str s => utf8Encode s
  | .bytes b => b

/-- `is_same_content(c1, c2)` from the source: equality of the SHA-1
hexdigests of the (UTF-8 normalized) contents. -/
def is_same_content (c1 c2 : Content) : Bool :=
  sha1hex (toBytes c1) == sha1hex (toBytes c2)

/-- C6: `is_same_content` is reflexive, symmetric and deterministic (equal
inputs give equal results across invocations), and a Unicode string
compares equal to its own UTF-8 byte encoding, so identical UTF-8 text
compares equal whether it arrived as decoded bytes or as freshly rendered
text. -/
theorem is_same_content_props :
    (∀ c, is_same_content c c = true) ∧
    (∀ c1 c2, is_same_content c1 c2 = is_same_content c2 c1) ∧
    (∀ c1 c2 c1' c2', c1 = c1' → c2 = c2' →
      is_same_content c1 c2 = is_same_content c1' c2') ∧
    (∀ s, is_same_content (.str s) (.bytes (utf8Encode s)) = true) := by
  refine ⟨?_, ?_, ?_, ?_⟩
  · intro c
    unfold is_same_content
    exact beq_self_eq_true _
  · intro c1 c2
    unfold is_same_content
    by_cases h : sha1hex (toBytes c1) = sha1hex (toBytes c2)
    · rw [h]
    · rw [beq_eq_false_iff_ne.mpr h, beq_eq_false_iff_ne.mpr (Ne.symm h)]
  · rintro c1 c2 c1' c2' rfl rfl
    rfl
  · intro s
    unfold is_same_content toBytes
    exact beq_self_eq_true _

/-- Witness for C6: the determinism conjunct applied at a concrete input,
its equality hypotheses discharged. -/
theorem is_same_content_props_witness :
    is_same_content (.str [104, 105]) (.bytes [104, 105]) =
      is_same_content (.str [104, 105]) (.bytes [104, 105]) :=
  is_same_content_props.2.2.1 (.str [104, 105]) (.bytes [104, 105])
    (.str [104, 105]) (.bytes [104, 105]) rfl rfl

/-- A JSON value of the shapes this program's configurations use. -/
inductive Val
  | s (x : String)
  | sdict (x : List (String × String))
  | slist (x : List String)
deriving DecidableEq, Repr

/-- A parsed configuration object: ordered keys to values (Python dicts
preserve insertion order). -/
abbrev Config := List (String × Val)

/-- The module-level `DEFAULT_CONFIG` object (its initial, built-in
value). -/
def DEFAULT_CONFIG : Config :=
  [("footer", .s "Status page hosted by GitHub, generated with <a href='https://github.com/jayfk/statuspage'>jayfk/statuspage</a>"),
   ("logo", .s "https://raw.githubusercontent.com/jayfk/statuspage/master/template/logo.png"),
   ("title", .s "Status"),
   ("favicon", .s "https://raw.githubusercontent.com/jayfk/statuspage/master/template/favicon.png"),
   ("system-color", .s "171717"),
   ("status-labels", .sdict [("investigating", "1192FC"),
     ("degraded performance", "FFA500"), ("major outage", "FF4D4D")]),
   ("templates", .slist ["template.html", "style.css", "statuspage.js",
     "translations.ini"])]

/-- The Python exceptions the config resolver can surface. -/
inductive PyErr
  | fileNotFound
  | valueError
  | runtimeError
deriving DecidableEq, Repr

/-- A file's content, represented by its JSON parse outcome.  The JSON
parser is an external collaborator per the spec; `.error ()` stands for
content on which `json.loads` raises a `ValueError`. -/
abbrev FileData := Except Unit Config

/-- `read_local_config(path)` from the source, over a filesystem modelled
as an association list path -> file.  The source checks
`os.path.isfile(path)` but then opens the literal `"config.json"` in the
current working directory; its `else` branch is a bare `raise`, which with
no active exception is a `RuntimeError`, and a missing `"config.json"`
makes `open` itself raise `FileNotFoundError`. -/
def read_local_config (fs : List (String × FileData)) (path : String) :
    Except PyErr Config :=
  if (findVal path fs).isSome then
    match findVal "config.json" fs with
    | some (.ok c) => .ok c
    | some (.error _) => .error .valueError
    | none => .error .fileNotFound
  else
    .error .runtimeError

/-- Python `dict.update`: shallow merge, updating keys overwrite in place,
new keys append at the end. -/
def dictUpdate (base upd : Config) : Config :=
  upd.foldl (fun acc kv => setKey kv.1 kv.2 acc) base

/-- The outcome of `get_config`: the returned object, the new state of the
module-level `DEFAULT_CONFIG` object, and whether the parse warning was
printed. -/
structure ConfigResult where
  result : Config
  newDefaults : Config
  warned : Bool
deriving DecidableEq, Repr

/-- `get_config(repo, branch_pages)` from the source, with the mutable
module-level default object passed as explicit state: `config =
DEFAULT_CONFIG` aliases the global object, so `config.update(repo_config)`
mutates it, and the function returns that same object. -/
def get_config (defaults : Config) (files : List (String × FileData)) :
    ConfigResult :=
  match findVal "config.json" files with
  | some (.ok rc) =>
    let merged := dictUpdate defaults rc
    ⟨merged, merged, false⟩
  | some (.error _) => ⟨defaults, defaults, true⟩
  | none => ⟨defaults, defaults, false⟩

/-- The template list `run_upgrade` iterates: `DEFAULT_CONFIG['templates']`
read from the module-level object (explicit state). -/
def run_upgrade_templates (state : Config) : Option Val :=
  findVal "templates" state

theorem findVal_dictUpdate (upd : Config) :
    ∀ (base : Config), (keysOf upd).Nodup → ∀ k,
      findVal k (dictUpdate base upd) =
        match findVal k upd with
        | some v => some v
        | none => findVal k base := by
  induction upd with
  | nil =>
    intro base _ k
    simp [dictUpdate, List.foldl, findVal]
  | cons kv rest ih =>
    intro base hnd k
    obtain ⟨k0, v0⟩ := kv
    have hrec : dictUpdate base ((k0, v0) :: rest) =
        dictUpdate (setKey k0 v0 base) rest := rfl
    rw [hrec, ih (setKey k0 v0 base) (by
      rw [keysOf_cons] at hnd
      exact hnd.of_cons) k]
    by_cases hk : k0 = k
    · subst hk
      have hnone : findVal k0 rest = none := by
        rw [findVal_eq_none]
        rw [keysOf_cons] at hnd
        exact (List.nodup_cons.mp hnd).1
      simp [findVal, hnone, findVal_setKey_self]
    · simp [findVal, hk, findVal_setKey_other _ _ hk]

/-- Fixture: a local config file at a custom path with distinct content
from the `config.json` in the current working directory. -/
def fsBug : List (String × FileData) :=
  [("/tmp/custom.json", .ok [("title", .s "custom")]),
   ("config.json", .ok [("title", .s "cwd")])]

/-- C7 (code bug): `read_local_config` ignores the given path and opens the
literal `"config.json"` in the current working directory, returning its
content instead of the given file's; and a missing path triggers a bare
`raise` (a `RuntimeError`), not a `FileNotFoundError`. -/
theorem read_local_config_bug :
    read_local_config fsBug "/tmp/custom.json" = .ok [("title", .s "cwd")] ∧
    (([("title", .s "cwd")] : Config) ≠ [("title", .s "custom")]) ∧
    read_local_config [] "/tmp/custom.json" = .error .runtimeError ∧
    PyErr.runtimeError ≠ PyErr.fileNotFound := by
  refine ⟨rfl, by decide, rfl, by decide⟩

/-- C8: with no local path, `get_config` returns the defaults unchanged
when no `config.json` is listed; when `config.json` parses, it returns the
defaults with the remote top-level keys shallow-merged over them (remote
values win per key); and when `config.json` fails to parse it warns and
returns the unmodified defaults instead of failing. -/
theorem get_config_spec (defaults : Config)
    (files : List (String × FileData)) :
    (findVal "config.json" files = none →
      get_config defaults files = ⟨defaults, defaults, false⟩) ∧
    (∀ rc, (keysOf rc).Nodup → findVal "config.json" files = some (.ok rc) →
      get_config defaults files =
        ⟨dictUpdate defaults rc, dictUpdate defaults rc, false⟩ ∧
      ∀ k, findVal k (dictUpdate defaults rc) =
        match findVal k rc with
        | some v => some v
        | none => findVal k defaults) ∧
    (∀ e, findVal "config.json" files = some (.error e) →
      get_config defaults files = ⟨defaults, defaults, true⟩) := by
  refine ⟨?_, ?_, ?_⟩
  · intro h
    unfold get_config
    rw [h]
  · intro rc hnd h
    constructor
    · unfold get_config
      rw [h]
    · exact findVal_dictUpdate rc defaults hnd
  · intro e h
    unfold get_config
    rw [h]

/-- Fixture: a remote config overriding only `status-labels` with a
partial mapping. -/
def remoteCfg : Config :=
  [("status-labels", .sdict [("investigating", "1192FC")])]

/-- Fixture: a pages-branch listing containing that remote config. -/
def filesRemote : List (String × FileData) := [("config.json", .ok remoteCfg)]

/-- Witness for C8: merging a remote config whose `status-labels` holds a
single severity replaces the whole nested mapping (shallow merge, no deep
merge). -/
theorem get_config_spec_witness :
    get_config DEFAULT_CONFIG filesRemote =
      ⟨dictUpdate DEFAULT_CONFIG remoteCfg, dictUpdate DEFAULT_CONFIG remoteCfg,
        false⟩ ∧
    findVal "status-labels" (dictUpdate DEFAULT_CONFIG remoteCfg) =
      some (.sdict [("investigating", "1192FC")]) :=
  ⟨((get_config_spec DEFAULT_CONFIG filesRemote).2.1 remoteCfg (by decide)
      rfl).1,
   by decide⟩

/-- C10: `get_config` returns the module-level default object itself (its
result equals the new default state) and merges remote keys into it in
place, so a later `get_config` call that finds no `config.json` returns
the previously merged values, and `run_upgrade`'s template list is read
from that same mutated state. -/
theorem get_config_mutates_defaults (files files2 : List (String × FileData))
    (rc : Config) (h : findVal "config.json" files = some (.ok rc))
    (h2 : findVal "config.json" files2 = none) :
    (get_config DEFAULT_CONFIG files).result =
      (get_config DEFAULT_CONFIG files).newDefaults ∧
    (get_config DEFAULT_CONFIG files).newDefaults =
      dictUpdate DEFAULT_CONFIG rc ∧
    get_config (get_config DEFAULT_CONFIG files).newDefaults files2 =
      ⟨dictUpdate DEFAULT_CONFIG rc, dictUpdate DEFAULT_CONFIG rc, false⟩ ∧
    run_upgrade_templates
        (get_config (get_config DEFAULT_CONFIG files).newDefaults
          files2).newDefaults =
      findVal "templates" (dictUpdate DEFAULT_CONFIG rc) := by
  have e1 : get_config DEFAULT_CONFIG files =
      ⟨dictUpdate DEFAULT_CONFIG rc, dictUpdate DEFAULT_CONFIG rc, false⟩ := by
    unfold get_config
    rw [h]
  have e2 : get_config (dictUpdate DEFAULT_CONFIG rc) files2 =
      ⟨dictUpdate DEFAULT_CONFIG rc, dictUpdate DEFAULT_CONFIG rc, false⟩ := by
    unfold get_config
    rw [h2]
  rw [e1]
  refine ⟨rfl, rfl, e2, ?_⟩
  rw [e2]
  rfl

/-- Fixture: a remote config changing the title and the template list. -/
def remoteCfg10 : Config :=
  [("title", .s "Custom"), ("templates", .slist ["only.html"])]

/-- Fixture: a pages-branch listing containing that remote config. -/
def filesRemote10 : List (String × FileData) :=
  [("config.json", .ok remoteCfg10)]

/-- Witness for C10: after one merging call, a second call with no
`config.json` observes the merged title and `run_upgrade` would iterate
the merged template list, not the built-in one. -/
theorem get_config_mutates_defaults_witness :
    get_config (get_config DEFAULT_CONFIG filesRemote10).newDefaults [] =
      ⟨dictUpdate DEFAULT_CONFIG remoteCfg10,
        dictUpdate DEFAULT_CONFIG remoteCfg10, false⟩ ∧
    findVal "title" (dictUpdate DEFAULT_CONFIG remoteCfg10) =
      some (.s "Custom") ∧
    findVal "title" DEFAULT_CONFIG = some (.s "Status") ∧
    run_upgrade_templates (dictUpdate DEFAULT_CONFIG remoteCfg10) =
      some (.slist ["only.html"]) ∧
    run_upgrade_templates DEFAULT_CONFIG =
      some (.slist ["template.html", "style.css", "statuspage.js",
        "translations.ini"]) :=
  ⟨(get_config_mutates_defaults filesRemote10 [] remoteCfg10 rfl rfl).2.2.1,
   by decide, by decide, by decide, by decide⟩

/-- A remote repository operation performed by `run_update`, as a recorded
effect. -/
inductive RepoOp
  | getRef (branch : String)
  | listFiles (ref : String)
  | getContents (path ref : String)
  | updateFile (path sha message branch : String)
  | createFile (path message branch : String)
deriving DecidableEq, Repr

/-- The remote state `run_update` runs against: head sha per branch
(`get_git_ref`), file content and blob sha per path and ref
(`get_contents`, `none` = `UnknownObjectException`), the pages-branch root
listing consumed by `get_config`, and the rendered page (the external
template engine's output). -/
structure UpdateEnv where
  shaOf : String → Option String
  fileAt : String → String → Option (Content × String)
  files : List (String × FileData)
  rendered : Content

/-- `run_update(...)` from the source as the sequence of repository
operations it performs: resolve the head of `branch_pages`, fetch
`/template.html` at that sha, resolve the config (`get_files` lists the
literal `"gh-pages"` ref; `config.json` is fetched at `branch_pages`),
fetch `/index.html` at the head sha, then either skip the commit when the
content hash matches, update `index.html` on the literal branch
`"gh-pages"`, or create it there when it does not exist. -/
def run_update_trace (env : UpdateEnv) (branch_pages : String) :
    List RepoOp :=
  match env.shaOf branch_pages with
  | none => [.getRef branch_pages]
  | some sha =>
    .getRef branch_pages ::
    match env.fileAt "/template.html" sha with
    | none => [.getContents "/template.html" sha]
    | some _ =>
      .getContents "/template.html" sha ::
      .listFiles "gh-pages" ::
      ((if (findVal "config.json" env.files).isSome then
          [RepoOp.getContents "config.json" branch_pages]
        else []) ++
      match env.fileAt "/index.html" sha with
      | none =>
        [.getContents "/index.html" sha,
         .createFile "index.html" "initial" "gh-pages"]
      | some (c, fsha) =>
        .getContents "/index.html" sha ::
        (if is_same_content env.rendered c then []
         else [.updateFile "index.html" fsha "update index" "gh-pages"]))

/-- C9: whatever pages branch is named, `run_update` resolves that branch
and reads the template, config and existing `index.html` from it (its head
sha for template and index, the branch name for `config.json`; the
`get_files` listing uses the literal `"gh-pages"`), while the `index.html`
write -- update or create -- always targets the literal branch
`"gh-pages"`. -/
theorem run_update_branches (env : UpdateEnv) (bp : String) :
    (∀ b, RepoOp.getRef b ∈ run_update_trace env bp → b = bp) ∧
    (∀ p r, RepoOp.getContents p r ∈ run_update_trace env bp →
      (p = "config.json" ∧ r = bp) ∨ env.shaOf bp = some r) ∧
    (∀ p s m b, RepoOp.updateFile p s m b ∈ run_update_trace env bp →
      p = "index.html" ∧ b = "gh-pages") ∧
    (∀ p m b, RepoOp.createFile p m b ∈ run_update_trace env bp →
      p = "index.html" ∧ b = "gh-pages") ∧
    (∀ r, RepoOp.listFiles r ∈ run_update_trace env bp → r = "gh-pages") := by
  unfold run_update_trace
  cases hsha : env.shaOf bp with
  | none =>
    refine ⟨?_, ?_, ?_, ?_, ?_⟩ <;> intros <;> simp_all
  | some sha =>
    cases htpl : env.fileAt "/template.html" sha with
    | none =>
      refine ⟨?_, ?_, ?_, ?_, ?_⟩ <;> intros <;> simp_all
    | some tpl =>
      by_cases hcfg : (findVal "config.json" env.files).isSome
      · cases hidx : env.fileAt "/index.html" sha with
        | none =>
          refine ⟨?_, ?_, ?_, ?_, ?_⟩ <;> intros <;> simp_all <;> tauto
        | some cf =>
          obtain ⟨c, fsha⟩ := cf
          by_cases hsame : is_same_content env.rendered c
          · refine ⟨?_, ?_, ?_, ?_, ?_⟩ <;> intros <;> simp_all <;> tauto
          · refine ⟨?_, ?_, ?_, ?_, ?_⟩ <;> intros <;> simp_all <;> tauto
      · cases hidx : env.fileAt "/index.html" sha with
        | none =>
          refine ⟨?_, ?_, ?_, ?_, ?_⟩ <;> intros <;> simp_all <;> tauto
        | some cf =>
          obtain ⟨c, fsha⟩ := cf
          by_cases hsame : is_same_content env.rendered c
          · refine ⟨?_, ?_, ?_, ?_, ?_⟩ <;> intros <;> simp_all <;> tauto
          · refine ⟨?_, ?_, ?_, ?_, ?_⟩ <;> intros <;> simp_all <;> tauto

/-- Fixture: a remote state whose pages branch is named `mybranch`, with a
template and an `index.html` whose stored content differs from the
rendered page, so an update commit happens. -/
def env0 : UpdateEnv :=
  ⟨fun b => if b = "mybranch" then some "S" else none,
   fun p r =>
     if p = "/template.html" ∧ r = "S" then some (.str [], "ts")
     else if p = "/index.html" ∧ r = "S" then some (.bytes [49], "is")
     else none,
   [], .str []⟩

/-- Witness for C9: on the fixture, the `index.html` read at the head sha
of `mybranch` is in the trace (so the read conjunct applies, its
membership hypothesis discharged by evaluation, content hash included). -/
theorem run_update_branches_witness :
    ("/index.html" = "config.json" ∧ "S" = "mybranch") ∨
      env0.shaOf "mybranch" = some "S" :=
  (run_update_branches env0 "mybranch").2.1 "/index.html" "S"
    (by set_option maxRecDepth 1000000 in decide)

end Statuspage
